import Mathlib

/-!
# Verification of the HashCat-GUI core against its specification

Shallow embedding of the core of the repository: the command builder,
process controller, status parser and results reader of
`src/core/hashcat.py`, and the argument validator and potfile monitor of
`src/core/server.py`.  Strings that are split or scanned character by
character are embedded as `List Char`; command token vectors are embedded
as `List String`.
-/

namespace HashcatGUI

/-! ## Character-level utilities modelling Python string operations -/

/-- The characters removed by Python's `str.strip()` (whitespace). -/
def isPySpace (c : Char) : Bool :=
  c = ' ' || c = '\t' || c = '\n' || c = '\r' || c.toNat = 11 || c.toNat = 12

/-- Python `str.strip()`: drop whitespace from both ends. -/
def pyStrip (s : List Char) : List Char :=
  ((s.dropWhile isPySpace).reverse.dropWhile isPySpace).reverse

/-- Python `str.split(sep)` for a one-character separator: splits at every
occurrence of `sep`; the empty string yields `[""]`. -/
def splitOnChar (sep : Char) : List Char → List (List Char)
  | [] => [[]]
  | c :: cs =>
    match splitOnChar sep cs with
    | [] => [[]]
    | r :: rs => if c = sep then [] :: r :: rs else (c :: r) :: rs

/-- Helper for `readlines`: accumulates the current (reversed) line. -/
def readlinesAux (acc : List Char) : List Char → List (List Char)
  | [] => if acc.isEmpty then [] else [acc.reverse]
  | c :: cs =>
    if c = '\n' then (acc.reverse ++ ['\n']) :: readlinesAux [] cs
    else readlinesAux (c :: acc) cs

/-- Python file iteration / `readlines()`: split into lines, each keeping its
terminating newline; a final unterminated chunk is its own line. -/
def readlines (s : List Char) : List (List Char) :=
  readlinesAux [] s

/-- Join fields with a one-character separator (inverse of `splitOnChar`
on separator-free fields). -/
def joinSep (sep : Char) : List (List Char) → List Char
  | [] => []
  | [f] => f
  | f :: g :: fs => f ++ sep :: joinSep sep (g :: fs)

/-- Python substring containment (`needle in hay`). -/
def containsSub : List Char → List Char → Bool
  | [], needle => needle.isEmpty
  | c :: t, needle => needle.isPrefixOf (c :: t) || containsSub t needle

/-- Value of a digit string, most significant digit first. -/
def digitsToNat (s : List Char) : Nat :=
  s.foldl (fun a c => a * 10 + (c.toNat - 48)) 0

/-- Python `int(str)` on the subset of plain decimal numerals: optional
surrounding whitespace, optional sign, then one or more digits. -/
def pyInt (s : List Char) : Option Int :=
  match pyStrip s with
  | '+' :: ds =>
    if !ds.isEmpty && ds.all Char.isDigit then some (digitsToNat ds : Int) else none
  | '-' :: ds =>
    if !ds.isEmpty && ds.all Char.isDigit then some (-(digitsToNat ds : Int)) else none
  | ds =>
    if !ds.isEmpty && ds.all Char.isDigit then some (digitsToNat ds : Int) else none

/-- Value of the fractional digits of a decimal literal. -/
def pyFracVal (s : List Char) : Rat :=
  (digitsToNat s : Rat) / ((10 : Rat) ^ s.length)

/-- Unsigned part of Python `float(str)` on plain decimal literals:
`"42"`, `"42.5"`, `"42."`, `".5"`. -/
def pyFloatCore (s : List Char) : Option Rat :=
  match splitOnChar '.' s with
  | [ip] =>
    if !ip.isEmpty && ip.all Char.isDigit then some (digitsToNat ip : Rat) else none
  | [ip, fp] =>
    if (ip.all Char.isDigit && fp.all Char.isDigit) && !(ip.isEmpty && fp.isEmpty) then
      some ((digitsToNat ip : Rat) + pyFracVal fp)
    else none
  | _ => none

/-- Python `float(str)` on the subset of plain decimal literals, modelled
exactly as a rational number. -/
def pyFloat (s : List Char) : Option Rat :=
  match pyStrip s with
  | '+' :: ds => pyFloatCore ds
  | '-' :: ds => (pyFloatCore ds).map Neg.neg
  | ds => pyFloatCore ds

/-! ## Model of `src/core/hashcat.py` -/

/-- The two configured paths `HashcatRunner` reads
(`config.get_path('hashcat')` and `config.get_path('potfile')`). -/
structure HashcatConfig where
  hashcat_path : String
  potfile_path : String
deriving DecidableEq

/-- The exception classes of `hashcat.py`: `HashcatError` and its
subclasses `CommandError` and `ExecutionError`. -/
inductive HashcatErr
  | hashcatError (msg : String)
  | commandError (msg : String)
  | executionError (msg : String)
deriving DecidableEq

/-- Python truthiness of an optional-string parameter (`if not wordlist`):
falsy when `None` or the empty string. -/
def truthyStr : Option String → Bool
  | none => false
  | some s => !(s == "")

/-- The fixed leading portion of every built command
(`hashcat.py` lines 62–72). -/
def baseCmd (cfg : HashcatConfig) (hash_type : Int) (hash_file : String)
    (attack_mode : Int) : List String :=
  [cfg.hashcat_path, "--status", "--status-timer=1", "--machine-readable", "--quiet",
   "--potfile-path", cfg.potfile_path, "-m", toString hash_type, "-a",
   toString attack_mode, hash_file]

/-- `HashcatRunner.build_command` (`hashcat.py` lines 54–87): builds the
token vector, appending mode-specific tokens for attack modes 0 and 3. -/
def build_command (cfg : HashcatConfig) (hash_type : Int) (hash_file : String)
    (attack_mode : Int) (wordlist rule mask : Option String) :
    Except HashcatErr (List String) :=
  let cmd := baseCmd cfg hash_type hash_file attack_mode
  if attack_mode = 0 then
    if truthyStr wordlist = false then
      .error (.commandError "Wordlist required for attack mode 0")
    else
      let cmd := cmd ++ [wordlist.getD ""]
      if truthyStr rule then .ok (cmd ++ ["-r", rule.getD ""]) else .ok cmd
  else if attack_mode = 3 then
    if truthyStr mask = false then
      .error (.commandError "Mask required for attack mode 3")
    else .ok (cmd ++ [mask.getD ""])
  else .ok cmd

/-- One spawned process as the runner observes it: `exit_code` is the value
`poll()` reports (`none` while the process is alive). -/
structure ProcHandle where
  exit_code : Option Int := none
deriving DecidableEq

/-- The mutable state of a `HashcatRunner`: the built command vector
(`self.command`, initially `[]`) and the process slot (`self.process`,
initially `None`). -/
structure RunnerState where
  command : List String := []
  process : Option ProcHandle := none
deriving DecidableEq

/-- `HashcatRunner.build_command` acting on the runner state: the
assignment `self.command = cmd` happens only after the mode checks, so the
state is unchanged when a required parameter is missing. -/
def build_command_r (r : RunnerState) (cfg : HashcatConfig) (hash_type : Int)
    (hash_file : String) (attack_mode : Int) (wordlist rule mask : Option String) :
    RunnerState × Except HashcatErr (List String) :=
  match build_command cfg hash_type hash_file attack_mode wordlist rule mask with
  | .ok cmd => ({ r with command := cmd }, .ok cmd)
  | .error e => (r, .error e)

/-- A concrete configuration used by counterexample theorems. -/
def cfg0 : HashcatConfig :=
  ⟨"/usr/bin/hashcat", "/root/.hashcat/hashcat.potfile"⟩

/-! ## Process controller: `start`, `stop`, `get_results` -/

/-- The Python exception classes that matter to `HashcatRunner.start`:
`subprocess.Popen` raises `FileNotFoundError` (missing binary),
`PermissionError` (binary not executable) or another `OSError` (resource
exhaustion); none of these is a subclass of `subprocess.SubprocessError`,
which is the only class the `except` clause of `start` catches. -/
inductive PyExc
  | fileNotFoundError
  | permissionError
  | oSError
  | subprocessError
  | hashcat (e : HashcatErr)
deriving DecidableEq

/-- Membership in Python's `subprocess.SubprocessError` class
(`FileNotFoundError`, `PermissionError` and plain `OSError` are subclasses
of `OSError`, not of `SubprocessError`). -/
def subprocessErrClass : PyExc → Bool
  | .subprocessError => true
  | _ => false

/-- `HashcatRunner.start` (`hashcat.py` lines 89–103).  The outcome of the
`subprocess.Popen` call is supplied as an oracle `popen` (it depends on the
operating system).  Returns the new runner state together with the raised
exception, if any: `CommandError` before any spawn when no command is
built, `ExecutionError` when the spawn raises a `SubprocessError`, and the
raw spawn exception otherwise (the `except subprocess.SubprocessError`
clause does not catch `OSError`).  The assignment to `self.process` happens
only when the spawn succeeds. -/
def start (r : RunnerState) (popen : Except PyExc ProcHandle) :
    RunnerState × Option PyExc :=
  if r.command.isEmpty then
    (r, some (.hashcat (.commandError "Command not built. Call build_command first.")))
  else
    match popen with
    | .ok h => ({ r with process := some h }, none)
    | .error e =>
      if subprocessErrClass e then
        (r, some (.hashcat (.executionError "Failed to start hashcat")))
      else (r, some e)

/-- How the child process responds to `stop()`'s signals — the
environment-dependent part of `HashcatRunner.stop`: the process may have
exited between the `poll()` check and `terminate()`, may exit within the
5-second grace period of `wait(timeout=5)`, or may survive it and be ended
by `kill()`. -/
inductive ProcFate
  | exitsBeforeSignal
  | exitsInGrace
  | needsKill
deriving DecidableEq

/-- Exit code observed after `stop()` ends the process, per fate
(`1` for a process that exited on its own, `-15` for SIGTERM, `-9` for
SIGKILL). -/
def exitCodeAfterStop : ProcFate → Int
  | .exitsBeforeSignal => 1
  | .exitsInGrace => -15
  | .needsKill => -9

/-- `HashcatRunner.stop` (`hashcat.py` lines 105–112): a no-op unless a
process exists and `poll()` reports it alive; otherwise `terminate()`,
`wait(timeout=5)` and, on timeout, `kill()` — every fate ends with the
process stopped and no exception is raised on any path (signalling an
already-exited child succeeds). -/
def stop (r : RunnerState) (f : ProcFate) : RunnerState :=
  match r.process with
  | none => r
  | some p =>
    match p.exit_code with
    | some _ => r
    | none => { r with process := some { exit_code := some (exitCodeAfterStop f) } }

/-- Whether the runner holds a live process (`self.process` set and
`poll()` returning `None`). -/
def runningR (r : RunnerState) : Bool :=
  match r.process with
  | none => false
  | some p => p.exit_code.isNone

/-- Insertion into a Python `dict` rendered as an association list keeping
insertion order: an existing key has its value replaced in place, a new key
is appended. -/
def dictInsert (d : List (List Char × List Char)) (k v : List Char) :
    List (List Char × List Char) :=
  if d.any (fun kv => kv.1 = k) then
    d.map (fun kv => if kv.1 = k then (k, v) else kv)
  else d ++ [(k, v)]

/-- The loop body of `HashcatRunner.get_results` (`hashcat.py` lines
177–184): strip the line, split on every `':'`; the two-part unpacking
succeeds only when the split yields exactly two parts, and a `ValueError`
from any other shape is swallowed by `continue`. -/
def potLineStep (results : List (List Char × List Char)) (line : List Char) :
    List (List Char × List Char) :=
  match splitOnChar ':' (pyStrip line) with
  | [h, p] => dictInsert results h p
  | _ => results

/-- `HashcatRunner.get_results` (`hashcat.py` lines 168–186): empty mapping
when no process was ever started or the potfile does not exist (`potfile`
is `none`), otherwise the fold of `potLineStep` over the file's lines. -/
def get_results (r : RunnerState) (potfile : Option (List Char)) :
    List (List Char × List Char) :=
  match r.process with
  | none => []
  | some _ =>
    match potfile with
    | none => []
    | some content => (readlines content).foldl potLineStep []

/-! ## Model of `validate_hashcat_args` (`src/core/server.py` lines 254–273) -/

/-- The fixed allow-list of recognized option names. -/
def allowed_args : List (List Char) :=
  ["-m".toList, "-a".toList, "-w".toList, "--status".toList,
   "--hwmon-disable".toList, "-O".toList, "-r".toList]

/-- `arg.split('=')[0] if '=' in arg else arg`: the option name before any
`=` separator. -/
def argBase (arg : List Char) : List Char :=
  if containsSub arg ['='] then (splitOnChar '=' arg).headD [] else arg

/-- The `for arg in args` loop of `validate_hashcat_args`: `a0` is
`args[0]`; any token equal to it is skipped, a flag token must have its
base in the allow-list, and any other token is rejected when it contains
`..` or `~` anywhere. -/
def validateLoop (a0 : List Char) : List (List Char) → Except (List Char) Bool
  | [] => .ok true
  | arg :: rest =>
    if arg = a0 then validateLoop a0 rest
    else if arg.head? = some '-' then
      if argBase arg ∈ allowed_args then validateLoop a0 rest
      else .error ("Invalid argument: ".toList ++ arg)
    else if containsSub arg "..".toList || containsSub arg "~".toList then
      .error ("Invalid path in argument: ".toList ++ arg)
    else validateLoop a0 rest

/-- `validate_hashcat_args` (`server.py` lines 254–273): iterates the loop
over the whole token list (the executable path is skipped through the
`arg == args[0]` comparison); returns `True` or raises `ValueError` naming
the offending token.  Performs no path normalization and no containment
check against configured root directories. -/
def validate_hashcat_args (args : List (List Char)) : Except (List Char) Bool :=
  match args with
  | [] => .ok true
  | a0 :: _ => validateLoop a0 args

/-- Acceptance condition of one token under `validate_hashcat_args` with
executable token `a0`. -/
def tokenOk (a0 arg : List Char) : Prop :=
  arg = a0 ∨
  (arg.head? = some '-' ∧ argBase arg ∈ allowed_args) ∨
  (arg.head? ≠ some '-' ∧ containsSub arg "..".toList = false ∧
    containsSub arg "~".toList = false)

/-- The default configured root directories of `config.py`
(binary directory, wordlist root, rule root, temp root). -/
def configuredRoots : List (List Char) :=
  ["/usr/bin".toList, "/usr/share/wordlists".toList,
   "/usr/share/hashcat/rules".toList, "/tmp".toList]

/-! ## Status parser (`HashcatRunner._parse_status`, `hashcat.py` lines 141–166) -/

/-- The `HashcatStatus` dataclass.  `time_started` keeps the raw epoch
value handed to `datetime.fromtimestamp`. -/
structure HashcatStatus where
  status : List Char
  progress : Rat
  speed : List Char
  estimated_completion : List Char
  recovered_hashes : Int
  total_hashes : Int
  time_started : Rat
deriving DecidableEq

/-- The default snapshot returned for an empty status line (`now` stands
for `datetime.now()`). -/
def defaultStatus (now : Rat) : HashcatStatus :=
  ⟨"Running".toList, 0, "0 H/s".toList, [], 0, 0, now⟩

/-- `HashcatRunner._parse_status`: an empty line yields the default
running snapshot; otherwise the line is split on tabs and fields 1–7 are
decoded (field 0, the tag, is ignored), with any missing field or failed
numeric conversion collapsing to `HashcatError`. -/
def parse_status (now : Rat) (status_line : List Char) :
    Except HashcatErr HashcatStatus :=
  if status_line = [] then .ok (defaultStatus now)
  else
    match splitOnChar '\t' status_line with
    | _ :: st :: pr :: sp :: ec :: rh :: th :: ts :: _ =>
      match pyFloat pr, pyInt rh, pyInt th, pyFloat ts with
      | some prv, some rhv, some thv, some tsv =>
        .ok ⟨st, prv, sp ++ " H/s".toList, ec, rhv, thv, tsv⟩
      | _, _, _, _ => .error (.hashcatError "Failed to parse status")
    | _ => .error (.hashcatError "Failed to parse status")


/-! ## Result File Monitor (`PotfileMonitor`, `server.py` lines 128–155)

The monitor keeps `last_position` (the file offset of the previous read's
end) and `last_size` (the size reported by the previous triggering
`os.path.getsize`).  One loop iteration stats the file and, when the
reported size exceeds `last_size`, opens the file, seeks to
`last_position`, reads every line to the end of file, invokes the callback
with each line stripped, then records the new read position and the stat
size.  Because the stat happens before the read and the writer may append
in between, an iteration is modelled with two parameters: `statSize`, the
size `os.path.getsize` saw, and `file`, the content at the moment of the
read, with `statSize ≤ file.length` for an append-only file. -/

structure MonitorState where
  last_position : Nat
  last_size : Nat
  /-- the sequence of callback invocations so far, oldest first -/
  emitted : List (List Char)
deriving DecidableEq

/-- Fresh monitor: `last_position = 0`, `last_size = 0`, nothing emitted. -/
def initMonitor : MonitorState := ⟨0, 0, []⟩

/-- One iteration of `PotfileMonitor.start_monitoring`'s loop body.  A
missing file is the degenerate case `statSize = 0`, which never passes the
size gate.  The file is append-only, so `last_position ≤ file.length`
whenever this is reached. -/
def pollOnce (m : MonitorState) (statSize : Nat) (file : List Char) : MonitorState :=
  if m.last_size < statSize then
    { last_position := file.length,
      last_size := statSize,
      emitted := m.emitted ++ (readlines (file.drop m.last_position)).map pyStrip }
  else m

/-- An interleaving of writer and monitor actions: the external process
appends one complete line (terminator added by the writer), or the monitor
runs one loop iteration whose stat reported `statSize`. -/
inductive PotEvent
  | append (line : List Char)
  | poll (statSize : Nat)

/-- Run a trace of events over the shared file and the monitor state. -/
def runTrace : List Char × MonitorState → List PotEvent → List Char × MonitorState
  | s, [] => s
  | (file, m), (.append l) :: evs => runTrace (file ++ l ++ ['\n'], m) evs
  | (file, m), (.poll sz) :: evs => runTrace (file, pollOnce m sz file) evs

/-- Well-formed trace starting from a file of `n` bytes: every appended
line is newline-free (a valid line appended atomically) and every stat
result is bounded by the file size at the moment of the read (the file
only grows between the stat and the read). -/
def wfTrace (n : Nat) : List PotEvent → Bool
  | [] => true
  | (.append l) :: evs => decide ('\n' ∉ l) && wfTrace (n + l.length + 1) evs
  | (.poll sz) :: evs => decide (sz ≤ n) && wfTrace n evs

/-- The lines appended by the writer over a trace, in append order. -/
def appendedLines : List PotEvent → List (List Char)
  | [] => []
  | (.append l) :: evs => l :: appendedLines evs
  | (.poll _) :: evs => appendedLines evs

/-- File content produced by appending each line with its terminator. -/
def flatFile : List (List Char) → List Char
  | [] => []
  | l :: ls => l ++ '\n' :: flatFile ls


/-- The monitor invariant: the file is exactly the appended lines, the
emitted sequence is the stripped prefix of the first `k` lines, the read
cursor sits at the end of that prefix, and the recorded size never exceeds
the cursor. -/
def MonInv (ls : List (List Char)) (file : List Char) (m : MonitorState) : Prop :=
  file = flatFile ls ∧
  m.last_size ≤ m.last_position ∧
  ∃ k, k ≤ ls.length ∧
    m.last_position = (flatFile (ls.take k)).length ∧
    m.emitted = (ls.take k).map pyStrip

/-! ## Claims C3, C4, C5 about the command builder -/

/-- C3: for a parameter set whose attack mode requires a missing
mode-specific parameter (mode 0 with no wordlist, mode 3 with no mask), the
builder fails with `CommandError`; the runner state is left unchanged
(hashcat.py performs no path validation at all), and `start` on a runner
whose command was never built raises `CommandError` for every possible
spawn outcome — i.e. without the spawn occurring. -/
theorem builder_missing_param_fails (cfg : HashcatConfig) (ht : Int) (hf : String)
    (w ru mk : Option String) (r : RunnerState)
    (hw : truthyStr w = false) (hm : truthyStr mk = false) :
    build_command cfg ht hf 0 w ru mk =
        .error (.commandError "Wordlist required for attack mode 0") ∧
    build_command cfg ht hf 3 w ru mk =
        .error (.commandError "Mask required for attack mode 3") ∧
    (build_command_r r cfg ht hf 0 w ru mk).1 = r ∧
    (build_command_r r cfg ht hf 3 w ru mk).1 = r ∧
    (r.command = [] → ∀ popen, start r popen =
      (r, some (.hashcat (.commandError "Command not built. Call build_command first.")))) := by
  have h0 : build_command cfg ht hf 0 w ru mk =
      .error (.commandError "Wordlist required for attack mode 0") := by
    simp [build_command, hw]
  have h3 : build_command cfg ht hf 3 w ru mk =
      .error (.commandError "Mask required for attack mode 3") := by
    simp [build_command, hm]
  refine ⟨h0, h3, ?_, ?_, ?_⟩
  · simp [build_command_r, h0]
  · simp [build_command_r, h3]
  · intro hcmd popen
    simp [start, hcmd]

/-- Witness for `builder_missing_param_fails` at a concrete configuration. -/
theorem builder_missing_param_fails_witness :
    truthyStr none = false ∧
    build_command ⟨"/usr/bin/hashcat", "/root/.hashcat/hashcat.potfile"⟩ 0 "crackme.txt"
        0 none none none =
      .error (.commandError "Wordlist required for attack mode 0") :=
  ⟨by decide,
   (builder_missing_param_fails ⟨"/usr/bin/hashcat", "/root/.hashcat/hashcat.potfile"⟩
      0 "crackme.txt" none none none ⟨[], none⟩ rfl rfl).1⟩

/-- C4 counterexample: attack mode 7 (neither 0 nor 3) is not rejected —
`build_command` silently returns a command vector with `-a 7` and no
mode-specific tokens. -/
theorem builder_mode7_not_rejected :
    build_command cfg0 0 "/tmp/crackme.txt" 7 none none none =
      .ok ["/usr/bin/hashcat", "--status", "--status-timer=1", "--machine-readable",
           "--quiet", "--potfile-path", "/root/.hashcat/hashcat.potfile", "-m", "0",
           "-a", "7", "/tmp/crackme.txt"] := by
  rfl

/-- C4 amended: for every attack mode other than 0 and 3 the builder does
not reject the request; it returns the base command vector (binary,
monitoring flags, `-m`, `-a`, hash file) with no mode-specific tokens. -/
theorem builder_other_mode_returns_base (cfg : HashcatConfig) (ht : Int)
    (hf : String) (am : Int) (w ru mk : Option String)
    (h0 : am ≠ 0) (h3 : am ≠ 3) :
    build_command cfg ht hf am w ru mk = .ok (baseCmd cfg ht hf am) := by
  simp [build_command, h0, h3]

/-- Witness for `builder_other_mode_returns_base` at attack mode 7. -/
theorem builder_other_mode_returns_base_witness :
    (7 : Int) ≠ 0 ∧ (7 : Int) ≠ 3 ∧
    build_command cfg0 0 "/tmp/crackme.txt" 7 none none none =
      .ok (baseCmd cfg0 0 "/tmp/crackme.txt" 7) :=
  ⟨by decide, by decide,
   builder_other_mode_returns_base cfg0 0 "/tmp/crackme.txt" 7 none none none
     (by decide) (by decide)⟩

/-- C5: a mode-0 build with a wordlist and no rule yields exactly the base
vector followed by the wordlist: resolved binary first, then the fixed
monitoring flags (`--status`, `--status-timer=1`, `--machine-readable`,
`--quiet`, `--potfile-path <potfile>`), the `-m` and `-a` flags, the hash
file, and finally the wordlist; the vector ends in `[hashFile, wordlist]`
and contains no `-r` token. -/
theorem builder_mode0_no_rule (cfg : HashcatConfig) (ht : Int) (hf w : String)
    (mk : Option String) (hw : w ≠ "")
    (n1 : cfg.hashcat_path ≠ "-r") (n2 : cfg.potfile_path ≠ "-r")
    (n3 : hf ≠ "-r") (n4 : w ≠ "-r") (n5 : toString ht ≠ "-r") :
    build_command cfg ht hf 0 (some w) none mk =
      .ok [cfg.hashcat_path, "--status", "--status-timer=1", "--machine-readable",
           "--quiet", "--potfile-path", cfg.potfile_path, "-m", toString ht,
           "-a", toString (0 : Int), hf, w] ∧
    [hf, w] <:+ [cfg.hashcat_path, "--status", "--status-timer=1", "--machine-readable",
           "--quiet", "--potfile-path", cfg.potfile_path, "-m", toString ht,
           "-a", toString (0 : Int), hf, w] ∧
    "-r" ∉ [cfg.hashcat_path, "--status", "--status-timer=1", "--machine-readable",
           "--quiet", "--potfile-path", cfg.potfile_path, "-m", toString ht,
           "-a", toString (0 : Int), hf, w] := by
  have htr : truthyStr (some w) = true := by
    simp [truthyStr, hw]
  refine ⟨?_, ?_, ?_⟩
  · simp [build_command, baseCmd, truthyStr, hw]
  · exact ⟨[cfg.hashcat_path, "--status", "--status-timer=1", "--machine-readable",
           "--quiet", "--potfile-path", cfg.potfile_path, "-m", toString ht,
           "-a", toString (0 : Int)], rfl⟩
  · intro hmem
    simp only [List.mem_cons, List.not_mem_nil, or_false] at hmem
    rcases hmem with h | h | h | h | h | h | h | h | h | h | h | h | h
    · exact n1 h.symm
    · exact absurd h (by decide)
    · exact absurd h (by decide)
    · exact absurd h (by decide)
    · exact absurd h (by decide)
    · exact absurd h (by decide)
    · exact n2 h.symm
    · exact absurd h (by decide)
    · exact n5 h.symm
    · exact absurd h (by decide)
    · exact absurd h (by decide)
    · exact n3 h.symm
    · exact n4 h.symm

/-- Witness for `builder_mode0_no_rule`: the spec scenario
`{hashType: 0, attackMode: 0, wordlist: "rockyou.txt"}` with no rule. -/
theorem builder_mode0_no_rule_witness :
    ("rockyou.txt" : String) ≠ "" ∧
    build_command cfg0 0 "/tmp/crackme.txt" 0 (some "rockyou.txt") none none =
      .ok [cfg0.hashcat_path, "--status", "--status-timer=1", "--machine-readable",
           "--quiet", "--potfile-path", cfg0.potfile_path, "-m", toString (0 : Int),
           "-a", toString (0 : Int), "/tmp/crackme.txt", "rockyou.txt"] ∧
    "-r" ∉ [cfg0.hashcat_path, "--status", "--status-timer=1", "--machine-readable",
           "--quiet", "--potfile-path", cfg0.potfile_path, "-m", toString (0 : Int),
           "-a", toString (0 : Int), "/tmp/crackme.txt", "rockyou.txt"] := by
  have h := builder_mode0_no_rule cfg0 0 "/tmp/crackme.txt" "rockyou.txt" none
    (by decide) (by decide) (by decide) (by decide) (by decide) (by decide)
  exact ⟨by decide, h.1, h.2.2⟩

/-! ## Claims C8, C9, C10, C7 -/

/-- C8 (code bug): on a runner with a built command, a spawn failure of any
of the three kinds named by the spec — binary missing
(`FileNotFoundError`), permission denied (`PermissionError`), OS resource
exhaustion (`OSError`) — propagates the raw OS exception instead of
`ExecutionError`, because `start`'s `except subprocess.SubprocessError`
clause does not catch `OSError`; the state is indeed left unchanged with no
process handle installed, and a genuine `SubprocessError` would be wrapped
as `ExecutionError`. -/
theorem start_spawn_failure_uncaught :
    start ⟨["/usr/bin/hashcat"], none⟩ (.error .fileNotFoundError) =
      (⟨["/usr/bin/hashcat"], none⟩, some .fileNotFoundError) ∧
    start ⟨["/usr/bin/hashcat"], none⟩ (.error .permissionError) =
      (⟨["/usr/bin/hashcat"], none⟩, some .permissionError) ∧
    start ⟨["/usr/bin/hashcat"], none⟩ (.error .oSError) =
      (⟨["/usr/bin/hashcat"], none⟩, some .oSError) ∧
    start ⟨["/usr/bin/hashcat"], none⟩ (.error .subprocessError) =
      (⟨["/usr/bin/hashcat"], none⟩,
        some (.hashcat (.executionError "Failed to start hashcat"))) ∧
    (∀ msg : String, PyExc.fileNotFoundError ≠ .hashcat (.executionError msg)) := by
  refine ⟨rfl, rfl, rfl, rfl, fun msg h => ?_⟩
  exact PyExc.noConfusion h

/-- C9: `stop` on a runner that is not running (no process, or process
already exited) is the identity; `stop` is idempotent under any pair of
fates; and after `stop` the runner is never running — covering the
grace-period exit, the forced kill, and the process that exited between the
check and the signal, none of which raises. -/
theorem stop_idempotent_and_stops (r : RunnerState) (f f' : ProcFate) :
    stop (stop r f) f' = stop r f ∧
    runningR (stop r f) = false ∧
    (runningR r = false → stop r f = r) := by
  obtain ⟨cmd, proc⟩ := r
  cases proc with
  | none => refine ⟨rfl, rfl, fun _ => rfl⟩
  | some p =>
    obtain ⟨pc⟩ := p
    cases pc with
    | none =>
      refine ⟨rfl, rfl, fun hr => ?_⟩
      simp [runningR] at hr
    | some c => refine ⟨rfl, rfl, fun _ => rfl⟩

/-- Witness for `stop_idempotent_and_stops`: a fresh runner with no
process is left unchanged by `stop`. -/
theorem stop_idempotent_and_stops_witness :
    runningR ⟨[], none⟩ = false ∧ stop ⟨[], none⟩ ProcFate.exitsInGrace = ⟨[], none⟩ :=
  ⟨rfl, (stop_idempotent_and_stops ⟨[], none⟩ ProcFate.exitsInGrace
      ProcFate.exitsInGrace).2.2 rfl⟩

/-- C10: `get_results` returns the empty mapping whenever no process has
ever been started, and whenever the configured results file does not
exist, without raising. -/
theorem get_results_empty (r : RunnerState) (pf : Option (List Char)) :
    (r.process = none → get_results r pf = []) ∧
    get_results r none = [] := by
  constructor
  · intro h
    simp [get_results, h]
  · obtain ⟨cmd, proc⟩ := r
    cases proc <;> rfl

/-- Witness for `get_results_empty`: a never-started runner with an
existing non-empty potfile, and a started runner with a missing potfile. -/
theorem get_results_empty_witness :
    get_results ⟨[], none⟩ (some ("a:b".toList)) = [] ∧
    get_results ⟨[], some ⟨none⟩⟩ none = [] :=
  ⟨(get_results_empty ⟨[], none⟩ (some ("a:b".toList))).1 rfl,
   (get_results_empty ⟨[], some ⟨none⟩⟩ none).2⟩

/-- C7: a results-file line that does not split into exactly two parts at
`':'` contributes nothing to the accumulated results and raises no error:
folding the loop body over the surrounding lines proceeds exactly as if the
malformed line were absent. -/
theorem malformed_potfile_line_discarded (pre post : List (List Char))
    (bad : List Char) (init : List (List Char × List Char))
    (hbad : (splitOnChar ':' (pyStrip bad)).length ≠ 2) :
    (pre ++ bad :: post).foldl potLineStep init = (pre ++ post).foldl potLineStep init := by
  have hstep : potLineStep (pre.foldl potLineStep init) bad = pre.foldl potLineStep init := by
    unfold potLineStep
    cases hsp : splitOnChar ':' (pyStrip bad) with
    | nil => rfl
    | cons a t =>
      cases t with
      | nil => rfl
      | cons b t2 =>
        cases t2 with
        | nil => exact absurd (by rw [hsp]; rfl) hbad
        | cons c t3 => rfl
  rw [List.foldl_append, List.foldl_append, List.foldl_cons, hstep]

/-- Witness for `malformed_potfile_line_discarded`: a line with no colon
between two well-formed lines. -/
theorem malformed_potfile_line_discarded_witness :
    (splitOnChar ':' (pyStrip "nocolon".toList)).length ≠ 2 ∧
    (["a:b".toList, "nocolon".toList, "c:d".toList]).foldl potLineStep [] =
      (["a:b".toList, "c:d".toList]).foldl potLineStep [] :=
  ⟨by decide,
   malformed_potfile_line_discarded ["a:b".toList] ["c:d".toList] "nocolon".toList []
     (by decide)⟩

/-! ## Claim C2 -/

theorem validateLoop_ok_iff (a0 : List Char) (l : List (List Char)) :
    validateLoop a0 l = .ok true ↔ ∀ arg ∈ l, tokenOk a0 arg := by
  induction l with
  | nil => simp [validateLoop]
  | cons arg rest ih =>
    simp only [List.mem_cons, forall_eq_or_imp]
    by_cases h1 : arg = a0
    · simpa [validateLoop, h1, tokenOk] using ih
    · by_cases h2 : arg.head? = some '-'
      · by_cases h3 : argBase arg ∈ allowed_args
        · simp only [validateLoop, if_neg h1, if_pos h2, if_pos h3]
          rw [ih]
          have hok : tokenOk a0 arg := Or.inr (Or.inl ⟨h2, h3⟩)
          simp [hok]
        · simp only [validateLoop, if_neg h1, if_pos h2, if_neg h3]
          constructor
          · intro hcontra
            exact Except.noConfusion hcontra
          · rintro ⟨hok, -⟩
            rcases hok with h | ⟨-, hmem⟩ | ⟨hh, -, -⟩
            · exact (h1 h).elim
            · exact (h3 hmem).elim
            · exact (hh h2).elim
      · by_cases h4 : (containsSub arg "..".toList || containsSub arg "~".toList) = true
        · simp only [validateLoop, if_neg h1, if_neg h2, if_pos h4]
          constructor
          · intro hcontra
            exact Except.noConfusion hcontra
          · rintro ⟨hok, -⟩
            rcases hok with h | ⟨hh, -⟩ | ⟨-, hd, hm⟩
            · exact (h1 h).elim
            · exact (h2 hh).elim
            · rw [Bool.or_eq_true] at h4
              rcases h4 with h4 | h4
              · rw [hd] at h4
                exact Bool.noConfusion h4
              · rw [hm] at h4
                exact Bool.noConfusion h4
        · simp only [validateLoop, if_neg h1, if_neg h2, if_neg h4]
          rw [ih]
          rw [Bool.or_eq_true, not_or, Bool.not_eq_true, Bool.not_eq_true] at h4
          have hok : tokenOk a0 arg := Or.inr (Or.inr ⟨h2, h4.1, h4.2⟩)
          simp [hok]

/-- C2 amended: the validator accepts a token list exactly when every token
after the executable comparison satisfies the allow-list test (for flag
tokens) or is free of `..` and `~` (for other tokens); no normalization or
root-containment check is performed, and the pure embedding never mutates
its input. -/
theorem validator_accepts_iff (a0 : List Char) (rest : List (List Char)) :
    validate_hashcat_args (a0 :: rest) = .ok true ↔
      ∀ arg ∈ a0 :: rest, tokenOk a0 arg := by
  rw [show validate_hashcat_args (a0 :: rest) = validateLoop a0 (a0 :: rest) from rfl,
    validateLoop_ok_iff]


/-- C2 counterexample: the already-normalized absolute path `/etc/passwd`
lies outside every configured root, contains no parent-directory segment
and no home shorthand, and is nevertheless accepted by the validator —
refuting the claim that every token resolving outside the configured roots
is rejected. -/
theorem validator_accepts_path_outside_roots :
    validate_hashcat_args ["/usr/bin/hashcat".toList, "/etc/passwd".toList] = .ok true ∧
    (∀ root ∈ configuredRoots, root.isPrefixOf "/etc/passwd".toList = false) := by
  constructor
  · rfl
  · decide

/-! ## Splitting lemmas -/

theorem splitOnChar_ne_nil (sep : Char) (t : List Char) : splitOnChar sep t ≠ [] := by
  cases t with
  | nil => simp [splitOnChar]
  | cons c cs =>
    simp only [splitOnChar]
    cases h : splitOnChar sep cs with
    | nil => simp
    | cons r rs => by_cases hc : c = sep <;> simp [hc]

theorem splitOnChar_append_no_sep (sep : Char) (a t : List Char) (h : sep ∉ a) :
    splitOnChar sep (a ++ t) =
      (a ++ (splitOnChar sep t).headD []) :: (splitOnChar sep t).tail := by
  induction a with
  | nil =>
    simp only [List.nil_append]
    cases hs : splitOnChar sep t with
    | nil => exact absurd hs (splitOnChar_ne_nil sep t)
    | cons r rs => simp
  | cons c a' ih =>
    have hc : c ≠ sep := fun hh => h (hh ▸ List.mem_cons_self c a')
    have h' : sep ∉ a' := fun hm => h (List.mem_cons_of_mem c hm)
    simp only [List.cons_append, splitOnChar, List.append_eq]
    rw [ih h']
    simp [hc]

theorem splitOnChar_cons_self (sep : Char) (t : List Char) :
    splitOnChar sep (sep :: t) = [] :: splitOnChar sep t := by
  simp only [splitOnChar]
  cases hs : splitOnChar sep t with
  | nil => exact absurd hs (splitOnChar_ne_nil sep t)
  | cons r rs => simp

theorem splitOnChar_field (sep : Char) (a t : List Char) (h : sep ∉ a) :
    splitOnChar sep (a ++ sep :: t) = a :: splitOnChar sep t := by
  rw [splitOnChar_append_no_sep sep a _ h, splitOnChar_cons_self]
  simp

theorem splitOnChar_no_sep (sep : Char) (a : List Char) (h : sep ∉ a) :
    splitOnChar sep a = [a] := by
  have := splitOnChar_append_no_sep sep a [] h
  simpa [splitOnChar] using this

theorem splitOnChar_joinSep (sep : Char) (fs : List (List Char)) (hne : fs ≠ [])
    (h : ∀ f ∈ fs, sep ∉ f) :
    splitOnChar sep (joinSep sep fs) = fs := by
  induction fs with
  | nil => contradiction
  | cons f rest ih =>
    cases rest with
    | nil => exact splitOnChar_no_sep sep f (h f (List.mem_cons_self f []))
    | cons g rs =>
      simp only [joinSep]
      rw [splitOnChar_field sep f _ (h f (List.mem_cons_self f (g :: rs)))]
      rw [ih (List.cons_ne_nil g rs) (fun x hx => h x (List.mem_cons_of_mem f hx))]

/-! ## Claim C6 -/

/-- C6: every well-formed tab-separated status line with fields
tag / state / progress / throughput / ETA / recovered / total / epoch
decodes with field 2 as the float progress, field 5 as the integer
recovered count and field 6 as the integer total count (state, throughput,
ETA and epoch landing in their respective fields). -/
theorem status_line_decodes (f0 f1 f2 f3 f4 f5 f6 f7 : List Char) (now p ts : Rat)
    (r t : Int)
    (hsep : ∀ f ∈ [f0, f1, f2, f3, f4, f5, f6, f7], '\t' ∉ f)
    (hp : pyFloat f2 = some p) (hr : pyInt f5 = some r)
    (ht : pyInt f6 = some t) (hts : pyFloat f7 = some ts) :
    parse_status now (joinSep '\t' [f0, f1, f2, f3, f4, f5, f6, f7]) =
      .ok ⟨f1, p, f3 ++ " H/s".toList, f4, r, t, ts⟩ := by
  have hsplit : splitOnChar '\t' (joinSep '\t' [f0, f1, f2, f3, f4, f5, f6, f7]) =
      [f0, f1, f2, f3, f4, f5, f6, f7] :=
    splitOnChar_joinSep '\t' _ (by simp) hsep
  have hne : joinSep '\t' [f0, f1, f2, f3, f4, f5, f6, f7] ≠ [] := by
    intro h0
    rw [h0] at hsplit
    simp [splitOnChar] at hsplit
  simp only [parse_status, hsplit, if_neg hne, hp, hr, ht, hts]

/-- Witness for `status_line_decodes`: the spec scenario line
`STATUS\tRunning\t42.5\t1200kH/s\t00:05:00\t3\t10\t1690000000` yields
progress 42.5, recovered 3, total 10. -/
theorem status_line_decodes_witness :
    pyFloat "42.5".toList = some (85 / 2 : Rat) ∧
    pyInt "3".toList = some 3 ∧ pyInt "10".toList = some 10 ∧
    pyFloat "1690000000".toList = some 1690000000 ∧
    parse_status 0 (joinSep '\t' ["STATUS".toList, "Running".toList, "42.5".toList,
        "1200kH/s".toList, "00:05:00".toList, "3".toList, "10".toList,
        "1690000000".toList]) =
      .ok ⟨"Running".toList, 85 / 2, "1200kH/s".toList ++ " H/s".toList,
           "00:05:00".toList, 3, 10, 1690000000⟩ := by
  have hprog : pyFloat "42.5".toList = some (85 / 2 : Rat) := by
    show some ((digitsToNat ['4', '2'] : Rat) + pyFracVal ['5']) = some (85 / 2 : Rat)
    rw [show digitsToNat ['4', '2'] = 42 from by decide]
    unfold pyFracVal
    rw [show digitsToNat ['5'] = 5 from by decide]
    norm_num
  have hts : pyFloat "1690000000".toList = some (1690000000 : Rat) := by
    show some ((digitsToNat
        ['1', '6', '9', '0', '0', '0', '0', '0', '0', '0'] : Rat)) = _
    rw [show digitsToNat ['1', '6', '9', '0', '0', '0', '0', '0', '0', '0'] =
        1690000000 from by decide]
    norm_num
  refine ⟨hprog, by decide, by decide, hts, ?_⟩
  exact status_line_decodes "STATUS".toList "Running".toList "42.5".toList
    "1200kH/s".toList "00:05:00".toList "3".toList "10".toList "1690000000".toList
    0 (85 / 2) 1690000000 3 10 (by decide) hprog (by decide) (by decide) hts


/-! ### Structure lemmas for the monitor -/

theorem flatFile_append (a b : List (List Char)) :
    flatFile (a ++ b) = flatFile a ++ flatFile b := by
  induction a with
  | nil => rfl
  | cons l a' ih => simp [flatFile, ih]

theorem readlinesAux_line (l : List Char) (h : '\n' ∉ l) (acc t : List Char) :
    readlinesAux acc (l ++ '\n' :: t) =
      ((acc.reverse ++ l) ++ ['\n']) :: readlinesAux [] t := by
  induction l generalizing acc with
  | nil => simp [readlinesAux]
  | cons c l' ih =>
    have hc : c ≠ '\n' := fun hh => h (hh ▸ List.mem_cons_self c l')
    have h' : '\n' ∉ l' := fun hm => h (List.mem_cons_of_mem c hm)
    simp only [List.cons_append, readlinesAux, if_neg hc, List.append_eq]
    rw [ih h' (c :: acc)]
    simp

theorem readlines_flatFile (ls : List (List Char)) (h : ∀ l ∈ ls, '\n' ∉ l) :
    readlines (flatFile ls) = ls.map (fun l => l ++ ['\n']) := by
  induction ls with
  | nil => rfl
  | cons l rest ih =>
    show readlinesAux [] (l ++ '\n' :: flatFile rest) = _
    rw [readlinesAux_line l (h l (List.mem_cons_self l rest)) [] (flatFile rest)]
    simp only [List.nil_append, List.map_cons]
    exact congrArg _ (ih fun x hx => h x (List.mem_cons_of_mem l hx))

theorem pyStrip_append_newline (l : List Char) : pyStrip (l ++ ['\n']) = pyStrip l := by
  unfold pyStrip
  rw [List.dropWhile_append]
  by_cases hl : (l.dropWhile isPySpace).isEmpty
  · rw [if_pos hl]
    have h0 : List.dropWhile isPySpace l = [] := by
      cases he : List.dropWhile isPySpace l with
      | nil => rfl
      | cons a b =>
        rw [he] at hl
        exact Bool.noConfusion hl
    rw [h0]
    rfl
  · rw [if_neg hl]
    have hstep : List.dropWhile isPySpace ((List.dropWhile isPySpace l ++ ['\n']).reverse) =
        List.dropWhile isPySpace ((List.dropWhile isPySpace l).reverse) := by
      rw [List.reverse_append]
      show List.dropWhile isPySpace ('\n' :: (List.dropWhile isPySpace l).reverse) = _
      rw [List.dropWhile_cons, if_pos (by decide : isPySpace '\n' = true)]
    rw [hstep]

theorem emitted_after_read (ls : List (List Char)) (k : Nat) (_hk : k ≤ ls.length)
    (hls : ∀ l ∈ ls, '\n' ∉ l) :
    (ls.take k).map pyStrip ++
      (readlines ((flatFile ls).drop (flatFile (ls.take k)).length)).map pyStrip =
    ls.map pyStrip := by
  have hsplit : flatFile ls = flatFile (ls.take k) ++ flatFile (ls.drop k) := by
    rw [← flatFile_append, List.take_append_drop]
  rw [hsplit, List.drop_left]
  rw [readlines_flatFile (ls.drop k)
    (fun x hx => hls x (List.mem_of_mem_drop hx))]
  rw [List.map_map]
  have hmap : List.map (pyStrip ∘ fun l => l ++ ['\n']) (ls.drop k) =
      List.map pyStrip (ls.drop k) :=
    List.map_congr_left (fun x _ => pyStrip_append_newline x)
  rw [hmap, ← List.map_append, List.take_append_drop]

theorem MonInv_append (ls : List (List Char)) (file : List Char) (m : MonitorState)
    (l : List Char) (hinv : MonInv ls file m) :
    MonInv (ls ++ [l]) (file ++ l ++ ['\n']) m := by
  obtain ⟨hfile, hle, k, hk, hpos, hemit⟩ := hinv
  refine ⟨?_, hle, k, hk.trans (by simp), ?_, ?_⟩
  · rw [hfile, flatFile_append]
    simp [flatFile]
  · rw [hpos, List.take_append_of_le_length hk]
  · rw [hemit, List.take_append_of_le_length hk]

theorem MonInv_poll (ls : List (List Char)) (file : List Char) (m : MonitorState)
    (sz : Nat) (hsz : sz ≤ file.length) (hls : ∀ l ∈ ls, '\n' ∉ l)
    (hinv : MonInv ls file m) : MonInv ls file (pollOnce m sz file) := by
  obtain ⟨hfile, hle, k, hk, hpos, hemit⟩ := hinv
  unfold pollOnce
  by_cases hgate : m.last_size < sz
  · rw [if_pos hgate]
    refine ⟨hfile, ?_, ls.length, le_refl _, ?_, ?_⟩
    · exact hsz
    · rw [List.take_length, hfile]
    · rw [List.take_length, hemit, hpos, hfile]
      exact emitted_after_read ls k hk hls
  · rw [if_neg hgate]
    exact ⟨hfile, hle, k, hk, hpos, hemit⟩

theorem runTrace_inv (evs : List PotEvent) (ls : List (List Char))
    (file : List Char) (m : MonitorState)
    (hwf : wfTrace file.length evs = true)
    (hls : ∀ l ∈ ls, '\n' ∉ l) (hinv : MonInv ls file m) :
    MonInv (ls ++ appendedLines evs) (runTrace (file, m) evs).1
      (runTrace (file, m) evs).2 ∧
    ∀ l ∈ ls ++ appendedLines evs, '\n' ∉ l := by
  induction evs generalizing ls file m with
  | nil =>
    simpa [runTrace, appendedLines] using ⟨hinv, hls⟩
  | cons ev evs ih =>
    cases ev with
    | append l =>
      simp only [wfTrace, Bool.and_eq_true, decide_eq_true_eq] at hwf
      obtain ⟨hnl, hwf'⟩ := hwf
      have hls' : ∀ x ∈ ls ++ [l], '\n' ∉ x := by
        intro x hx
        rcases List.mem_append.mp hx with hx | hx
        · exact hls x hx
        · rw [List.mem_singleton.mp hx]
          exact hnl
      have hwf'' : wfTrace (file ++ l ++ ['\n']).length evs = true := by
        simpa [List.length_append, Nat.add_assoc] using hwf'
      have := ih (ls ++ [l]) (file ++ l ++ ['\n']) m hwf'' hls'
        (MonInv_append ls file m l hinv)
      simpa [runTrace, appendedLines, List.append_assoc] using this
    | poll sz =>
      simp only [wfTrace, Bool.and_eq_true, decide_eq_true_eq] at hwf
      obtain ⟨hsz, hwf'⟩ := hwf
      have := ih ls file (pollOnce m sz file) hwf' hls
        (MonInv_poll ls file m sz hsz hls hinv)
      simpa [runTrace, appendedLines] using this

theorem flatFile_length_lt (ls : List (List Char)) (k : Nat) (hk : k < ls.length) :
    (flatFile (ls.take k)).length < (flatFile ls).length := by
  have hsplit : flatFile ls = flatFile (ls.take k) ++ flatFile (ls.drop k) := by
    rw [← flatFile_append, List.take_append_drop]
  rw [hsplit, List.length_append]
  have hne : ls.drop k ≠ [] := by
    intro h0
    have := List.length_drop k ls
    rw [h0] at this
    simp at this
    omega
  obtain ⟨d, ds, hds⟩ := List.exists_cons_of_ne_nil hne
  rw [hds]
  simp [flatFile]

/-- A poll whose stat already sees the whole current file flushes every
appended line: afterwards the emission sequence is exactly the stripped
lines in append order. -/
theorem pollOnce_flush (ls : List (List Char)) (file : List Char) (m : MonitorState)
    (hls : ∀ l ∈ ls, '\n' ∉ l) (hinv : MonInv ls file m) :
    (pollOnce m file.length file).emitted = ls.map pyStrip := by
  obtain ⟨hfile, hle, k, hk, hpos, hemit⟩ := hinv
  unfold pollOnce
  by_cases hgate : m.last_size < file.length
  · rw [if_pos hgate]
    show m.emitted ++ _ = _
    rw [hemit, hpos, hfile]
    exact emitted_after_read ls k hk hls
  · rw [if_neg hgate]
    have hkeq : k = ls.length := by
      by_contra hne
      have hklt : k < ls.length := lt_of_le_of_ne hk hne
      have hlt : (flatFile (ls.take k)).length < (flatFile ls).length :=
        flatFile_length_lt ls k hklt
      rw [← hfile] at hlt
      rw [← hpos] at hlt
      omega
    rw [hemit, hkeq, List.take_length]


/-! ## Claim C1 -/

/-- C1: over every well-formed interleaving of whole-line appends and
monitor poll iterations, the emission sequence is at every moment the
stripped appended lines in append order with no duplicate and no skipped
line (a prefix of the append sequence), and one further poll whose stat
sees the current size flushes the remainder — so the callback is invoked
exactly once per appended line, in file order, regardless of how poll
cycles interleave with the writes. -/
theorem potfile_monitor_exactly_once (evs : List PotEvent)
    (hwf : wfTrace 0 evs = true) :
    (∃ k, (runTrace ([], initMonitor) evs).2.emitted =
        ((appendedLines evs).take k).map pyStrip) ∧
    (pollOnce (runTrace ([], initMonitor) evs).2
        (runTrace ([], initMonitor) evs).1.length
        (runTrace ([], initMonitor) evs).1).emitted =
      (appendedLines evs).map pyStrip := by
  have h0 : MonInv [] [] initMonitor :=
    ⟨rfl, le_refl 0, 0, by simp, rfl, rfl⟩
  have hmain := runTrace_inv evs [] [] initMonitor hwf (by simp) h0
  obtain ⟨hinv, hls⟩ := hmain
  rw [List.nil_append] at hinv hls
  refine ⟨?_, ?_⟩
  · obtain ⟨-, -, k, -, -, hemit⟩ := hinv
    exact ⟨k, hemit⟩
  · exact pollOnce_flush _ _ _ hls hinv

/-- Witness for `potfile_monitor_exactly_once`: the writer appends
`aa:bb`, the monitor polls with a fresh stat, the writer appends `c:d`,
and the monitor polls again. -/
theorem potfile_monitor_exactly_once_witness :
    wfTrace 0 [PotEvent.append "aa:bb".toList, PotEvent.poll 6,
        PotEvent.append "c:d".toList, PotEvent.poll 10] = true ∧
    ((∃ k, (runTrace ([], initMonitor) [PotEvent.append "aa:bb".toList, PotEvent.poll 6,
        PotEvent.append "c:d".toList, PotEvent.poll 10]).2.emitted =
        ((appendedLines [PotEvent.append "aa:bb".toList, PotEvent.poll 6,
        PotEvent.append "c:d".toList, PotEvent.poll 10]).take k).map pyStrip) ∧
    (pollOnce (runTrace ([], initMonitor) [PotEvent.append "aa:bb".toList, PotEvent.poll 6,
        PotEvent.append "c:d".toList, PotEvent.poll 10]).2
        (runTrace ([], initMonitor) [PotEvent.append "aa:bb".toList, PotEvent.poll 6,
        PotEvent.append "c:d".toList, PotEvent.poll 10]).1.length
        (runTrace ([], initMonitor) [PotEvent.append "aa:bb".toList, PotEvent.poll 6,
        PotEvent.append "c:d".toList, PotEvent.poll 10]).1).emitted =
      (appendedLines [PotEvent.append "aa:bb".toList, PotEvent.poll 6,
        PotEvent.append "c:d".toList, PotEvent.poll 10]).map pyStrip) :=
  ⟨by decide,
   potfile_monitor_exactly_once [PotEvent.append "aa:bb".toList, PotEvent.poll 6,
     PotEvent.append "c:d".toList, PotEvent.poll 10] (by decide)⟩

end HashcatGUI
